import Mathlib

/-!
Verification of the document-processing core of `paperless-llm` (`src/main.rs`).

Shallow embedding conventions:
* Rust `&str` / `String` values are modelled as `List Char` (`Str`), i.e. as the
  sequence of Unicode scalar values; the UTF-8 byte length of a string is
  recovered by `byteLen` via `Char.utf8Size`, matching Rust's `str::len`.
* Rust `f32` values produced by `"...".parse::<f32>()` are modelled exactly:
  finite values as rationals (no rounding to binary), infinities and NaN as
  separate constructors of `FVal`.  The claims under verification only involve
  amounts whose decimal/float round trip is exact (such as 42.00 or 12.34), so
  this idealisation is faithful on every input the theorems touch.
* `serde_json::Value` payloads of custom fields are modelled by their string
  payload: the only values the core ever writes are strings, and pre-existing
  values are carried around opaquely.
* The display width of a character (crate `unicode-width`, used by
  `unicode-truncate`) is Unicode-table data external to the repository; the
  truncation model is parameterised by an arbitrary width function
  `w : Char -> Nat`, and `charWidth` instantiates it faithfully on the code
  points appearing in concrete inputs of this file (C0 control characters and
  combining marks have width 0, other characters below U+0370 have width 1).
-/

/-- Rust string slices are sequences of Unicode scalar values. -/
abbrev Str := List Char

/-- UTF-8 byte length of a string; this is what Rust's `str::len` (used at
`d.content.len()` and `prompt.len()` in `main.rs`) returns. -/
def byteLen (s : Str) : Nat := (s.map Char.utf8Size).sum

/-- Total display width of a string under width function `w`. -/
def widthLen (w : Char → Nat) (s : Str) : Nat := (s.map w).sum

/-- Display width of the code points used by concrete inputs in this file,
following the `unicode-width` crate: C0/DEL control characters and the
combining diacritical marks U+0300..U+036F have width 0; all other code points
appearing in this development have width 1. -/
def charWidth (c : Char) : Nat :=
  if c.toNat < 0x20 then 0
  else if c.toNat = 0x7f then 0
  else if 0x300 ≤ c.toNat ∧ c.toNat ≤ 0x36f then 0
  else 1

/-- Split a string at every occurrence of `sep`, keeping empty pieces; the
result always has one more piece than there are separators (so it is never
empty).  This is the splitting underlying both Rust's `str::lines` (with
`sep = newline`) and the decimal-point split of the number parser. -/
def splitOnChar (sep : Char) : Str → List Str
  | [] => [[]]
  | c :: rest =>
    if c = sep then [] :: splitOnChar sep rest
    else
      match splitOnChar sep rest with
      | [] => [[c]]
      | l :: ls => (c :: l) :: ls

/-- Remove one trailing carriage return, if present.  Rust's `str::lines`
applies this to every line that was terminated by a line feed. -/
def stripCr (l : Str) : Str :=
  if l.getLast? = some '\x0d' then l.dropLast else l

/-- Post-processing of the raw split for Rust's `str::lines`: every piece that
was followed by a line feed (all but the last) gets a trailing carriage return
stripped, and the final piece is dropped when empty (a terminal line feed does
not open a new line). -/
def finishLines : List Str → List Str
  | [] => []
  | [l] => if l = [] then [] else [l]
  | l :: ls => stripCr l :: finishLines ls

/-- Rust's `str::lines`, as used by `Output::from_str` in `main.rs`
(`s.lines().collect()`). -/
def rustLines (s : Str) : List Str := finishLines (splitOnChar '\n' s)

/-- Decimal digit test, as in Rust float parsing. -/
def isDigit (c : Char) : Bool := '0' ≤ c && c ≤ '9'

/-- Numeric value of a digit string (most significant first). -/
def digitsVal (s : Str) : Nat :=
  s.foldl (fun acc c => 10 * acc + (c.toNat - '0'.toNat)) 0

/-- Mantissa part of Rust's float grammar:
`Digit+ | Digit+ '.' Digit* | Digit* '.' Digit+`, valued as an exact
rational. -/
def parseMantissa (s : Str) : Option ℚ :=
  match splitOnChar '.' s with
  | [ip] => if ip ≠ [] ∧ ip.all isDigit then some (digitsVal ip) else none
  | [ip, fp] =>
    if (ip ≠ [] ∨ fp ≠ []) ∧ ip.all isDigit ∧ fp.all isDigit then
      some ((digitsVal ip : ℚ) + (digitsVal fp : ℚ) / (10 : ℚ) ^ fp.length)
    else none
  | _ => none

/-- Exponent part of Rust's float grammar: `Sign? Digit+`. -/
def parseExpPart (s : Str) : Option ℤ :=
  match s with
  | '+' :: r => if r ≠ [] ∧ r.all isDigit then some (digitsVal r) else none
  | '-' :: r => if r ≠ [] ∧ r.all isDigit then some (-(digitsVal r : ℤ)) else none
  | r => if r ≠ [] ∧ r.all isDigit then some (digitsVal r) else none

/-- Value of an `f32`, idealised: finite values are exact rationals. -/
inductive FVal where
  | finite (q : ℚ)
  | posInf
  | negInf
  | nan
  deriving DecidableEq, Repr

/-- Negation of an idealised float (effect of a leading minus sign). -/
def FVal.neg : FVal → FVal
  | .finite q => .finite (-q)
  | .posInf => .negInf
  | .negInf => .posInf
  | .nan => .nan

/-- Unsigned body of Rust's `f32::from_str`: a case-insensitive infinity or
NaN keyword, or a number `Mantissa ('e'|'E' Exp)?`. -/
def parseF32Body (s : Str) : Option FVal :=
  let low := s.map Char.toLower
  if low = "inf".toList ∨ low = "infinity".toList then some .posInf
  else if low = "nan".toList then some .nan
  else
    match s.findIdx? (fun c => c = 'e' || c = 'E') with
    | none => (parseMantissa s).map .finite
    | some i =>
      match parseMantissa (s.take i), parseExpPart (s.drop (i + 1)) with
      | some m, some e => some (.finite (m * (10 : ℚ) ^ e))
      | _, _ => none

/-- Rust's `f32::from_str`, as invoked by `lines[1].parse()` in `main.rs`:
an optional sign followed by the unsigned body. -/
def parseF32 (s : Str) : Option FVal :=
  match s with
  | '+' :: r => parseF32Body r
  | '-' :: r => (parseF32Body r).map FVal.neg
  | r => parseF32Body r

/-- The structured output parsed from the model reply (`struct Output` in
`main.rs`): a title and an optional amount. -/
structure Output where
  title : Str
  amount : Option FVal
  deriving DecidableEq, Repr

/-- Failure cases of `Output::from_str` (both are `anyhow` errors in the
source; the payload records which check failed, mirroring the error
messages "Incorrect number of lines" and the float parse error). -/
inductive ParseErr where
  | wrongLineCount (n : Nat)
  | badAmount (s : Str)
  deriving DecidableEq, Repr

/-- Body of `Output::from_str` once the lines are collected: exactly two
lines are required; line 1 is the title verbatim; line 2 is either the
literal `-` marker (no amount) or must parse as an `f32`. -/
def outputOfLines : List Str → Except ParseErr Output
  | [t, v] =>
    if v = ['-'] then .ok ⟨t, none⟩
    else
      match parseF32 v with
      | some q => .ok ⟨t, some q⟩
      | none => .error (.badAmount v)
  | ls => .error (.wrongLineCount ls.length)

/-- Implementation of `Output::from_str` from `main.rs`: split into lines, then validate. -/
def outputFromStr (s : Str) : Except ParseErr Output :=
  outputOfLines (rustLines s)

instance {ε α : Type} [DecidableEq ε] [DecidableEq α] : DecidableEq (Except ε α)
  | .ok a, .ok b =>
    if h : a = b then .isTrue (by rw [h]) else .isFalse (by simp [h])
  | .ok _, .error _ => .isFalse (by simp)
  | .error _, .ok _ => .isFalse (by simp)
  | .error a, .error b =>
    if h : a = b then .isTrue (by rw [h]) else .isFalse (by simp [h])

/-- The character budget for the document text, from `main.rs` lines 75-79:
`(n_ctx as f32 * 2.5 - prompt.len() as f32 - 50.0).ceil() as usize`.
Since `2.5 * n = 5n/2`, the ceiling is `(5n+1)/2` in integers, and the cast of
a negative float to `usize` clamps at zero, which Nat subtraction models
exactly.  (The f32 arithmetic is exact in the realistic range of `n_ctx` and
prompt lengths; the embedding uses the exact value.) -/
def maxDocSize (nCtx promptLen : Nat) : Nat :=
  (5 * nCtx + 1) / 2 - promptLen - 50

/-- The `unicode-truncate` crate's `unicode_truncate(maxW)`: the longest
prefix whose total display width (under `w`) does not exceed `maxW`; it never
splits a character (the model works on whole scalar values, so byte-level
splitting is unrepresentable, matching the crate's guarantee). -/
def unicodeTruncate (w : Char → Nat) : Nat → Str → Str
  | _, [] => []
  | m, c :: rest => if w c ≤ m then c :: unicodeTruncate w (m - w c) rest else []

/-- Result of the truncation step: the (possibly truncated) content, plus the
warning signal.  `warned = some (original, budget)` records the fields of the
`warn!` call (`original = d.content.len()`, `truncated = max_doc_size`);
`none` means no warning was emitted. -/
structure AssembleResult where
  content : Str
  warned : Option (Nat × Nat)
  deriving DecidableEq, Repr

/-- Lines 80-89 of `main.rs`: if the byte length of the content exceeds the
budget, warn and truncate with `unicode_truncate`; otherwise pass the content
through unmodified. -/
def assembleContent (w : Char → Nat) (nCtx promptLen : Nat) (content : Str) :
    AssembleResult :=
  let m := maxDocSize nCtx promptLen
  if byteLen content > m then ⟨unicodeTruncate w m content, some (byteLen content, m)⟩
  else ⟨content, none⟩

/-- A custom field entry (`paperless::CustomFieldValue`); the value is the
string payload of the JSON value (see the header notes). -/
structure CustomFieldValue where
  field : Nat
  value : Str
  deriving DecidableEq, Repr

/-- A document as fetched from paperless (`paperless::DocumentResponse`). -/
structure Document where
  title : Str
  content : Str
  tags : List Nat
  custom_fields : List CustomFieldValue
  deriving DecidableEq, Repr

/-- The update payload sent by `patch_document` (`main.rs` lines 156-161):
new title, remaining tags, and the custom-field list. -/
structure Patch where
  title : Str
  tags : List Nat
  custom_fields : List CustomFieldValue
  deriving DecidableEq, Repr

/-- Round a rational to the nearest integer, ties to even, matching the
rounding used by Rust's fixed-precision float formatting. -/
def roundHalfEven (q : ℚ) : ℤ :=
  if q - ⌊q⌋ < 1 / 2 then ⌊q⌋
  else if 1 / 2 < q - ⌊q⌋ then ⌊q⌋ + 1
  else if 2 ∣ ⌊q⌋ then ⌊q⌋ else ⌊q⌋ + 1

/-- Decimal digit string of a natural number. -/
def natToStr (n : Nat) : Str := (Nat.repr n).toList

/-- Two-digit zero-padded rendering of a number below 100. -/
def twoDigits (n : Nat) : Str := if n < 10 then '0' :: natToStr n else natToStr n

/-- Rust's `format!("{:.2}", amount)` on an `f32`, idealised on exact
rationals (the sign of a negative zero is not representable and no claim
touches it). -/
def formatFixed2 : FVal → Str
  | .nan => "NaN".toList
  | .posInf => "inf".toList
  | .negInf => "-inf".toList
  | .finite q =>
    (if roundHalfEven (q * 100) < 0 then ['-'] else []) ++
      natToStr ((roundHalfEven (q * 100)).natAbs / 100) ++
      '.' :: twoDigits ((roundHalfEven (q * 100)).natAbs % 100)

/-- The update patch computed in `main.rs` lines 141-156: when an amount was
parsed, the custom fields are filtered of the amount field and a fresh entry
`currency ++ format("{:.2}", amount)` is appended; otherwise the custom
fields are left exactly as fetched.  The processing tag is removed from the
tag list (`retain`), and the title is replaced by the model's title. -/
def buildPatch (currency : Str) (fieldId tagId : Nat) (d : Document) (o : Output) :
    Patch :=
  let cf :=
    match o.amount with
    | some a =>
      d.custom_fields.filter (fun f => f.field ≠ fieldId) ++
        [⟨fieldId, currency ++ formatFixed2 a⟩]
    | none => d.custom_fields
  ⟨o.title, d.tags.filter (fun t => t ≠ tagId), cf⟩

/-- Applying a patch to a document replaces exactly the three patched fields
(paperless PATCH semantics: full replacement of `title`, `tags`,
`custom_fields`). -/
def applyPatch (d : Document) (p : Patch) : Document :=
  ⟨p.title, d.content, p.tags, p.custom_fields⟩

/-- Observable effects of the tail of `process_document` (lines 141-162)
after a successful parse: which patches were debug-logged ("Computed patch")
and which `patch_document` store writes were issued. -/
structure ApplyTrace where
  loggedPatches : List Patch
  updateCalls : List (Nat × Patch)
  deriving DecidableEq, Repr

/-- Lines 141-162 of `process_document`: everything (patch construction, the
debug log of the patch, and the store write) happens inside
`if params.args.apply`; with the flag off, nothing is computed, logged or
written. -/
def applyStage (applyFlag : Bool) (currency : Str) (fieldId tagId : Nat)
    (id : Nat) (d : Document) (o : Output) : ApplyTrace :=
  if applyFlag then
    ⟨[buildPatch currency fieldId tagId d o],
      [(id, buildPatch currency fieldId tagId d o)]⟩
  else ⟨[], []⟩

/-- State of the bounded fan-out in `main_impl` (lines 247-263): ids not yet
pulled from the stream, ids whose `process_document` future is in flight, and
the ids already finished, split by outcome (the failure list models the
`collect`ed output of the `filter_map`). -/
structure OrchState where
  pending : List Nat
  inFlight : List Nat
  succeeded : List Nat
  failed : List Nat
  deriving DecidableEq, Repr

/-- One scheduling step of `buffer_unordered(10)` over the mapped stream:
a new future may start only while fewer than 10 are in flight (ids start in
stream order), and any in-flight future may complete, its id landing in the
failure list exactly when its pipeline fails (`outcome id = true` means the
per-document pipeline returns an error; the error is converted to membership
of the failure list and never escapes). -/
inductive OrchStep (outcome : Nat → Bool) : OrchState → OrchState → Prop
  | start (id : Nat) (rest fl sc fa : List Nat) :
      fl.length < 10 →
      OrchStep outcome ⟨id :: rest, fl, sc, fa⟩ ⟨rest, id :: fl, sc, fa⟩
  | finishOk (p fl1 fl2 sc fa : List Nat) (id : Nat) :
      outcome id = false →
      OrchStep outcome ⟨p, fl1 ++ id :: fl2, sc, fa⟩ ⟨p, fl1 ++ fl2, id :: sc, fa⟩
  | finishErr (p fl1 fl2 sc fa : List Nat) (id : Nat) :
      outcome id = true →
      OrchStep outcome ⟨p, fl1 ++ id :: fl2, sc, fa⟩ ⟨p, fl1 ++ fl2, sc, id :: fa⟩

/-- Initial state: all ids pending, nothing in flight or finished. -/
def orchInit (ids : List Nat) : OrchState := ⟨ids, [], [], []⟩

/-- Reachability of a scheduler state from the initial state, over any
interleaving. -/
def orchReach (outcome : Nat → Bool) (ids : List Nat) (s : OrchState) : Prop :=
  Relation.ReflTransGen (OrchStep outcome) (orchInit ids) s

/-- A run is over when no future is pending or in flight; `main_impl` then
holds the collected failure list. -/
def orchDone (s : OrchState) : Prop := s.pending = [] ∧ s.inFlight = []

/-- Run invariant of the fan-out: the four lists always partition the
submitted ids (as a multiset), the failure list holds only failing ids, the
success list only succeeding ones, and at most 10 futures are in flight. -/
def orchOk (outcome : Nat → Bool) (ids : List Nat) (s : OrchState) : Prop :=
  ((s.pending : Multiset Nat) + (s.inFlight : Multiset Nat) +
      (s.succeeded : Multiset Nat) + (s.failed : Multiset Nat) =
    (ids : Multiset Nat)) ∧
  (∀ i ∈ s.failed, outcome i = true) ∧
  (∀ i ∈ s.succeeded, outcome i = false) ∧
  s.inFlight.length ≤ 10


/-- C1 counterexample: for a document whose custom fields contain an entry for
the amount field (id 9), the patch built from a no-amount output still
contains that entry, because lines 144-154 of `main.rs` only touch
`custom_fields` when an amount is present. -/
theorem c1_counterexample :
    (⟨9, "CHF1.00".toList⟩ : CustomFieldValue) ∈
      (buildPatch "CHF".toList 9 3
        ⟨"Invoice".toList, [], [3], [⟨9, "CHF1.00".toList⟩]⟩
        ⟨"New Title".toList, none⟩).custom_fields := by decide

/-- C1 (amended): when the structured output has no amount, the patch's
custom-field list is exactly the document's original custom-field list; an
existing amount entry is preserved, not removed. -/
theorem c1_amount_absent_fields_unchanged (currency : Str) (fieldId tagId : Nat)
    (d : Document) (o : Output) (h : o.amount = none) :
    (buildPatch currency fieldId tagId d o).custom_fields = d.custom_fields := by
  simp [buildPatch, h]

/-- C1 witness: the amended theorem at a concrete document carrying an amount
entry. -/
theorem c1_witness :
    (buildPatch "CHF".toList 9 3 ⟨"Invoice".toList, [], [3], [⟨9, "old".toList⟩]⟩
      ⟨"T".toList, none⟩).custom_fields = [⟨9, "old".toList⟩] :=
  c1_amount_absent_fields_unchanged "CHF".toList 9 3 _ _ rfl

/-- C5: building a patch, applying it, and rebuilding from the updated state
with the same structured output yields the same patch (removing the absent
tag and re-upserting the amount field are no-ops). -/
theorem c5_patch_idempotent (currency : Str) (fieldId tagId : Nat)
    (d : Document) (o : Output) :
    buildPatch currency fieldId tagId
      (applyPatch d (buildPatch currency fieldId tagId d o)) o =
    buildPatch currency fieldId tagId d o := by
  cases h : o.amount with
  | none => simp [buildPatch, applyPatch, h, List.filter_filter]
  | some a => simp [buildPatch, applyPatch, h, List.filter_filter]

/-- C6: with an amount present, the patch keeps every non-amount custom field,
carries exactly one entry for the amount field valued
`currency ++ format("{:.2}", amount)`, and the end-to-end scenario of the spec
(document id 7 titled Invoice with processing tag 3 and no custom fields,
model reply two lines Invoice 42 and 42.00) produces the expected patch. -/
theorem c6_amount_present_fields (currency : Str) (fieldId tagId : Nat)
    (d : Document) (o : Output) (a : FVal) (h : o.amount = some a) :
    ((buildPatch currency fieldId tagId d o).custom_fields =
      d.custom_fields.filter (fun f => f.field ≠ fieldId) ++
        [⟨fieldId, currency ++ formatFixed2 a⟩]) ∧
    (∀ f ∈ d.custom_fields, f.field ≠ fieldId →
      f ∈ (buildPatch currency fieldId tagId d o).custom_fields) ∧
    ((buildPatch currency fieldId tagId d o).custom_fields.filter
        (fun f => f.field = fieldId) = [⟨fieldId, currency ++ formatFixed2 a⟩]) ∧
    (outputFromStr "Invoice 42\n42.00".toList =
      .ok ⟨"Invoice 42".toList, some (.finite 42)⟩) ∧
    (buildPatch "CHF".toList 9 3
        ⟨"Invoice".toList, "Total: 42.00 CHF".toList, [3], []⟩
        ⟨"Invoice 42".toList, some (.finite 42)⟩ =
      ⟨"Invoice 42".toList, [], [⟨9, "CHF42.00".toList⟩]⟩) := by
  have hfmt : roundHalfEven ((42 : ℚ) * 100) = 4200 := by
    unfold roundHalfEven; norm_num
  have hout : outputFromStr "Invoice 42\n42.00".toList =
      .ok ⟨"Invoice 42".toList, some (.finite ((digitsVal ['4', '2'] : ℚ) +
        (digitsVal ['0', '0'] : ℚ) / (10 : ℚ) ^ (['0', '0'] : Str).length))⟩ := rfl
  have d1 : digitsVal ['4', '2'] = 42 := by decide
  have d2 : digitsVal ['0', '0'] = 0 := by decide
  refine ⟨by simp [buildPatch, h], ?_, ?_, ?_, ?_⟩
  · intro f hf hne
    simp [buildPatch, h, List.mem_filter, hf, hne]
  · have hcontra : ∀ f : CustomFieldValue,
        (decide (f.field = fieldId) && decide (¬f.field = fieldId)) = false := by
      intro f
      by_cases hf : f.field = fieldId <;> simp [hf]
    simp only [buildPatch, h, List.filter_append, List.filter_filter]
    simp [hcontra]
  · rw [hout, d1, d2]
    norm_num
  · simp only [buildPatch, formatFixed2, hfmt]
    decide

/-- C6 witness: the theorem instantiated at a concrete document having both a
stale amount entry (field 1) and an unrelated field (field 4). -/
theorem c6_witness :
    (buildPatch ['X'] 1 2 ⟨['t'], [], [], [⟨1, ['a']⟩, ⟨4, ['b']⟩]⟩
      ⟨['u'], some (.finite 5)⟩).custom_fields =
      ([⟨1, ['a']⟩, ⟨4, ['b']⟩] : List CustomFieldValue).filter
          (fun f => f.field ≠ 1) ++ [⟨1, ['X'] ++ formatFixed2 (.finite 5)⟩] :=
  (c6_amount_present_fields ['X'] 1 2 ⟨['t'], [], [], [⟨1, ['a']⟩, ⟨4, ['b']⟩]⟩
    ⟨['u'], some (.finite 5)⟩ (.finite 5) rfl).1

/-- C7 counterexample: in dry-run mode the would-be patch is not logged (the
debug log of the computed patch happens only inside the apply branch), so the
logged-patch list is empty rather than containing the would-be patch. -/
theorem c7_counterexample :
    (applyStage false "CHF".toList 9 3 7 ⟨"Invoice".toList, [], [3], []⟩
        ⟨"T".toList, none⟩ = ⟨[], []⟩) ∧
    ¬(buildPatch "CHF".toList 9 3 ⟨"Invoice".toList, [], [3], []⟩
        ⟨"T".toList, none⟩ ∈
      (applyStage false "CHF".toList 9 3 7 ⟨"Invoice".toList, [], [3], []⟩
        ⟨"T".toList, none⟩).loggedPatches) := by decide

/-- C7 (amended): in dry-run mode (`--apply` not set), for every parsed
document nothing is written to the store (the stored state is unchanged) and
the would-be patch is neither computed nor logged; only the title diff is
logged upstream of this stage. -/
theorem c7_dry_run_no_write_no_log (currency : Str) (fieldId tagId id : Nat)
    (d : Document) (o : Output) :
    applyStage false currency fieldId tagId id d o = ⟨[], []⟩ := rfl

theorem splitOnChar_ne_nil (sep : Char) (s : Str) : splitOnChar sep s ≠ [] := by
  cases s with
  | nil => simp [splitOnChar]
  | cons c rest =>
    simp only [splitOnChar]
    split
    · simp
    · cases h : splitOnChar sep rest <;> simp

theorem splitOnChar_cons_ne (sep c : Char) (s : Str) (h : c ≠ sep)
    (l : Str) (ls : List Str) (hs : splitOnChar sep s = l :: ls) :
    splitOnChar sep (c :: s) = (c :: l) :: ls := by
  simp only [splitOnChar, if_neg h, hs]

theorem splitOnChar_append (sep : Char) (a b : Str) :
    splitOnChar sep (a ++ sep :: b) = splitOnChar sep a ++ splitOnChar sep b := by
  induction a with
  | nil => simp [splitOnChar]
  | cons c a ih =>
    by_cases h : c = sep
    · subst h
      simp [List.cons_append, splitOnChar, ih]
    · obtain ⟨l, ls, hs⟩ : ∃ l ls, splitOnChar sep a = l :: ls := by
        cases hh : splitOnChar sep a with
        | nil => exact absurd hh (splitOnChar_ne_nil sep a)
        | cons l ls => exact ⟨l, ls, rfl⟩
      have h2 : splitOnChar sep (a ++ sep :: b) = l :: (ls ++ splitOnChar sep b) := by
        rw [ih, hs]; rfl
      rw [List.cons_append,
        splitOnChar_cons_ne sep c (a ++ sep :: b) h l (ls ++ splitOnChar sep b) h2,
        splitOnChar_cons_ne sep c a h l ls hs]
      rfl

theorem splitOnChar_not_mem (sep : Char) (v : Str) (h : sep ∉ v) :
    splitOnChar sep v = [v] := by
  induction v with
  | nil => rfl
  | cons c r ih =>
    have hc : c ≠ sep := fun hcc => h (hcc ▸ List.mem_cons_self c r)
    have hr : sep ∉ r := fun hm => h (List.mem_cons_of_mem _ hm)
    exact splitOnChar_cons_ne sep c r hc r [] (ih hr)

theorem finishLines_cons_of_ne (l : Str) (ls : List Str) (h : ls ≠ []) :
    finishLines (l :: ls) = stripCr l :: finishLines ls := by
  cases ls with
  | nil => exact absurd rfl h
  | cons a t => rfl

theorem rustLines_append_newline (t v : Str) (hv : '\n' ∉ v) (h1 : v ≠ [])
    (h2 : stripCr v = v) :
    rustLines (t ++ '\n' :: (v ++ ['\n'])) = rustLines (t ++ '\n' :: v) := by
  have e1 : splitOnChar '\n' (t ++ '\n' :: (v ++ ['\n'])) =
      splitOnChar '\n' t ++ [v, []] := by
    have hb : v ++ ['\n'] = v ++ '\n' :: ([] : Str) := rfl
    rw [splitOnChar_append, hb, splitOnChar_append, splitOnChar_not_mem _ _ hv]
    rfl
  have e2 : splitOnChar '\n' (t ++ '\n' :: v) = splitOnChar '\n' t ++ [v] := by
    rw [splitOnChar_append, splitOnChar_not_mem _ _ hv]
  unfold rustLines
  rw [e1, e2]
  generalize splitOnChar '\n' t = A
  induction A with
  | nil =>
    simp only [List.nil_append]
    rw [finishLines_cons_of_ne v [[]] (by simp)]
    simp [finishLines, h1, h2]
  | cons a A ih =>
    rw [List.cons_append, List.cons_append,
      finishLines_cons_of_ne a (A ++ [v, []]) (by simp),
      finishLines_cons_of_ne a (A ++ [v]) (by simp), ih]

/-- C10 counterexample: a single trailing newline is not always insignificant.
With second line `5<CR>` the un-terminated form fails (the carriage return is
kept, so the number parse fails) while the newline-terminated form succeeds
(the carriage return is stripped as part of the CRLF ending); with an empty
second line, or a second line itself ending in a newline, the two forms give
different errors. -/
theorem c10_counterexample :
    outputFromStr "a\n5\x0d\n".toList ≠ outputFromStr "a\n5\x0d".toList ∧
    outputFromStr "a\n\n".toList ≠ outputFromStr "a\n".toList ∧
    outputFromStr "a\n5\n\n".toList ≠ outputFromStr "a\n5\n".toList := by
  refine ⟨?_, by decide, by decide⟩
  intro h
  have h2 : outputFromStr "a\n5\x0d".toList = .error (.badAmount ['5', '\x0d']) := by
    decide
  have h1 : outputFromStr "a\n5\x0d\n".toList =
      .ok ⟨['a'], some (.finite (digitsVal ['5'] : ℚ))⟩ := rfl
  rw [h1, h2] at h
  cases h

/-- C10 (amended): parsing `t ++ newline ++ v ++ newline` gives exactly the
same result as parsing `t ++ newline ++ v`, for every title line `t` and
every second line `v` that is non-empty, contains no newline, and does not
end in a carriage return (the three exceptional cases of the
counterexample). -/
theorem c10_trailing_newline (t v : Str) (h1 : v ≠ []) (h2 : '\n' ∉ v)
    (h3 : v.getLast? ≠ some '\x0d') :
    outputFromStr (t ++ '\n' :: (v ++ ['\n'])) = outputFromStr (t ++ '\n' :: v) := by
  unfold outputFromStr
  rw [rustLines_append_newline t v h2 h1 (by unfold stripCr; rw [if_neg h3])]

/-- C10 witness: the amended theorem at title `a` and second line `5`. -/
theorem c10_witness :
    outputFromStr (['a'] ++ '\n' :: (['5'] ++ ['\n'])) =
      outputFromStr (['a'] ++ '\n' :: ['5']) :=
  c10_trailing_newline ['a'] ['5'] (by decide) (by decide) (by decide)

/-- C3: the parser fails (with the line-count error) on every input whose
line count is not exactly 2, fails (with the bad-amount error) when the
second line is neither the `-` marker nor accepted by the f32 parser,
succeeds on every well-formed input with line 1 taken verbatim as the title,
and in particular accepts the two concrete replies of the spec. -/
theorem c3_parser_contract :
    (∀ s : Str, (rustLines s).length ≠ 2 →
      outputFromStr s = .error (.wrongLineCount (rustLines s).length)) ∧
    (∀ s t v : Str, rustLines s = [t, v] → v ≠ ['-'] → parseF32 v = none →
      outputFromStr s = .error (.badAmount v)) ∧
    (∀ s t v : Str, rustLines s = [t, v] → v = ['-'] →
      outputFromStr s = .ok ⟨t, none⟩) ∧
    (∀ (s t v : Str) (q : FVal), rustLines s = [t, v] → parseF32 v = some q →
      outputFromStr s = .ok ⟨t, some q⟩) ∧
    (outputFromStr "Some Title\n-".toList = .ok ⟨"Some Title".toList, none⟩) ∧
    (outputFromStr "Some Title\n12.34".toList =
      .ok ⟨"Some Title".toList, some (.finite (1234 / 100))⟩) := by
  refine ⟨?_, ?_, ?_, ?_, by decide, ?_⟩
  · intro s h
    unfold outputFromStr
    rcases hl : rustLines s with _ | ⟨a, _ | ⟨b, _ | ⟨c, r⟩⟩⟩ <;>
      simp_all [outputOfLines]
  · intro s t v hl hv hp
    unfold outputFromStr
    rw [hl]
    simp [outputOfLines, hv, hp]
  · intro s t v hl hv
    unfold outputFromStr
    rw [hl, hv]
    simp [outputOfLines]
  · intro s t v q hl hp
    unfold outputFromStr
    rw [hl]
    by_cases hv : v = ['-']
    · subst hv
      rw [show parseF32 ['-'] = none from by decide] at hp
      cases hp
    · simp [outputOfLines, hv, hp]
  · have hout : outputFromStr "Some Title\n12.34".toList =
        .ok ⟨"Some Title".toList, some (.finite ((digitsVal ['1', '2'] : ℚ) +
          (digitsVal ['3', '4'] : ℚ) / (10 : ℚ) ^ (['3', '4'] : Str).length))⟩ := rfl
    have d1 : digitsVal ['1', '2'] = 12 := by decide
    have d2 : digitsVal ['3', '4'] = 34 := by decide
    rw [hout, d1, d2]
    norm_num

/-- C3 witness: the line-count conjunct applied to a one-line input. -/
theorem c3_witness : outputFromStr ['x'] = .error (.wrongLineCount 1) :=
  c3_parser_contract.1 ['x'] (by decide)

theorem byteLen_pos (s : Str) (h : s ≠ []) : 0 < byteLen s := by
  cases s with
  | nil => exact absurd rfl h
  | cons c r =>
    have := c.utf8Size_pos
    simp only [byteLen, List.map_cons, List.sum_cons]
    omega

theorem unicodeTruncate_take (w : Char → Nat) (m : Nat) (s : Str) :
    s.take (unicodeTruncate w m s).length = unicodeTruncate w m s := by
  induction s generalizing m with
  | nil => rfl
  | cons c r ih =>
    simp only [unicodeTruncate]
    split
    · simp [ih]
    · rfl

theorem widthLen_unicodeTruncate (w : Char → Nat) (m : Nat) (s : Str) :
    widthLen w (unicodeTruncate w m s) ≤ m := by
  induction s generalizing m with
  | nil => simp [unicodeTruncate, widthLen]
  | cons c r ih =>
    simp only [unicodeTruncate]
    split
    · have := ih (m - w c)
      simp only [widthLen, List.map_cons, List.sum_cons] at *
      omega
    · simp [widthLen]

theorem unicodeTruncate_longest (w : Char → Nat) (m : Nat) (s : Str) (k : Nat)
    (hk : k ≤ s.length) (h : widthLen w (s.take k) ≤ m) :
    k ≤ (unicodeTruncate w m s).length := by
  induction s generalizing m k with
  | nil =>
    simp only [List.length_nil, Nat.le_zero] at hk
    simp [unicodeTruncate, hk]
  | cons c r ih =>
    cases k with
    | zero => exact Nat.zero_le _
    | succ k =>
      simp only [List.take_succ_cons, widthLen, List.map_cons, List.sum_cons] at h
      have hw : w c ≤ m := by omega
      have h2 : widthLen w (r.take k) ≤ m - w c := by
        simp only [widthLen]
        omega
      simp only [unicodeTruncate, if_pos hw, List.length_cons]
      have := ih (m - w c) k (by simpa using hk) h2
      omega

/-- C2 counterexample: with the two-character content consisting of two
copies of U+00E9 (2 UTF-8 bytes and display width 1 each) and a budget of 3,
the byte length 4 exceeds the budget so the code warns and truncates, yet the
result is the whole input: it is not a prefix of exactly 3 units under any
measure (it has 2 characters, 4 bytes, width 2), and under the
character-count reading of length (2 le 3) a warning is emitted although the
text is within budget. -/
theorem c2_counterexample :
    byteLen "éé".toList = 4 ∧ ("éé".toList : Str).length = 2 ∧
    widthLen charWidth "éé".toList = 2 ∧
    maxDocSize 22 2 = 3 ∧
    assembleContent charWidth 22 2 "éé".toList = ⟨"éé".toList, some (4, 3)⟩ := by
  decide

/-- C2 (amended): the comparison uses the UTF-8 byte length of the content;
if it is within the budget the text passes through unmodified with no
warning, and if it exceeds the budget the warning (carrying byte length and
budget) is emitted and the result is the longest prefix of the text whose
total display width does not exceed the budget (whole characters only, so no
multi-byte character is split); the warning fires exactly in the truncation
case. -/
theorem c2_truncation_behavior (w : Char → Nat) (nCtx promptLen : Nat) (s : Str) :
    (byteLen s ≤ maxDocSize nCtx promptLen →
      assembleContent w nCtx promptLen s = ⟨s, none⟩) ∧
    (maxDocSize nCtx promptLen < byteLen s →
      assembleContent w nCtx promptLen s =
        ⟨unicodeTruncate w (maxDocSize nCtx promptLen) s,
          some (byteLen s, maxDocSize nCtx promptLen)⟩) ∧
    ((assembleContent w nCtx promptLen s).warned ≠ none ↔
      maxDocSize nCtx promptLen < byteLen s) ∧
    (s.take (unicodeTruncate w (maxDocSize nCtx promptLen) s).length =
      unicodeTruncate w (maxDocSize nCtx promptLen) s) ∧
    (widthLen w (unicodeTruncate w (maxDocSize nCtx promptLen) s) ≤
      maxDocSize nCtx promptLen) ∧
    (∀ k, k ≤ s.length →
      widthLen w (s.take k) ≤ maxDocSize nCtx promptLen →
      k ≤ (unicodeTruncate w (maxDocSize nCtx promptLen) s).length) := by
  refine ⟨?_, ?_, ?_, unicodeTruncate_take w _ s, widthLen_unicodeTruncate w _ s,
    fun k hk h => unicodeTruncate_longest w _ s k hk h⟩
  · intro h
    simp [assembleContent, Nat.not_lt.mpr h]
  · intro h
    simp [assembleContent, h]
  · by_cases h : maxDocSize nCtx promptLen < byteLen s <;>
      simp [assembleContent, h]

/-- C2 witness: the no-truncation branch at a content of 2 bytes against a
budget of 3. -/
theorem c2_witness :
    assembleContent charWidth 22 2 "ab".toList = ⟨"ab".toList, none⟩ :=
  (c2_truncation_behavior charWidth 22 2 "ab".toList).1 (by decide)

/-- C8 counterexample: at budget 0 a non-empty content consisting of a single
tab character (width 0 under `unicode-width`) is passed through whole, not
truncated to the empty string. -/
theorem c8_counterexample :
    maxDocSize 0 0 = 0 ∧
    assembleContent charWidth 0 0 "\t".toList = ⟨"\t".toList, some (1, 0)⟩ ∧
    ("\t".toList : Str) ≠ [] ∧
    (assembleContent charWidth 0 0 "\t".toList).content ≠ [] := by decide

/-- C8 (amended): whenever `n_ctx * 2.5 - len(prompt) - 50` is zero or
negative the budget clamps to zero; every non-empty text then takes the
truncation branch (with a warning) and is cut to its longest prefix of total
display width 0 — the empty string whenever its first character has positive
width — and no error occurs (the stage is a total function whose output is
passed on to the next stage). -/
theorem c8_zero_budget_total (w : Char → Nat) (nCtx promptLen : Nat)
    (h : 5 * nCtx ≤ 2 * (promptLen + 50)) :
    maxDocSize nCtx promptLen = 0 ∧
    (∀ s : Str, s ≠ [] →
      assembleContent w nCtx promptLen s =
        ⟨unicodeTruncate w 0 s, some (byteLen s, 0)⟩) ∧
    (∀ (c : Char) (s : Str), 0 < w c →
      assembleContent w nCtx promptLen (c :: s) =
        ⟨[], some (byteLen (c :: s), 0)⟩) := by
  have hm : maxDocSize nCtx promptLen = 0 := by
    unfold maxDocSize
    omega
  refine ⟨hm, ?_, ?_⟩
  · intro s hs
    have := byteLen_pos s hs
    simp [assembleContent, hm, this]
  · intro c s hc
    have hpos : 0 < byteLen (c :: s) := byteLen_pos _ (by simp)
    have ht : unicodeTruncate w 0 (c :: s) = [] := by
      simp only [unicodeTruncate]
      rw [if_neg (by omega)]
    simp [assembleContent, hm, hpos, ht]

/-- C8 witness: a width-1 character at budget zero is truncated away. -/
theorem c8_witness :
    assembleContent charWidth 0 0 "a".toList = ⟨[], some (1, 0)⟩ :=
  (c8_zero_budget_total charWidth 0 0 (by decide)).2.2 'a' [] (by decide)

theorem orchStep_invariant (outcome : Nat → Bool) (ids : List Nat)
    {s1 s2 : OrchState} (hstep : OrchStep outcome s1 s2)
    (h : orchOk outcome ids s1) : orchOk outcome ids s2 := by
  obtain ⟨hm, hf, hsc, hlen⟩ := h
  cases hstep with
  | start id rest fl sc fa hl =>
    refine ⟨?_, hf, hsc, by simp only [List.length_cons]; omega⟩
    rw [← hm]
    simp only [← Multiset.cons_coe, ← Multiset.singleton_add]
    abel
  | finishOk p fl1 fl2 sc fa id hout =>
    refine ⟨?_, hf, ?_, ?_⟩
    · rw [← hm]
      simp only [← Multiset.coe_add, ← Multiset.cons_coe, ← Multiset.singleton_add]
      abel
    · intro i hi
      rcases List.mem_cons.mp hi with rfl | hi
      · exact hout
      · exact hsc i hi
    · simp only [List.length_append, List.length_cons] at hlen ⊢
      omega
  | finishErr p fl1 fl2 sc fa id hout =>
    refine ⟨?_, ?_, hsc, ?_⟩
    · rw [← hm]
      simp only [← Multiset.coe_add, ← Multiset.cons_coe, ← Multiset.singleton_add]
      abel
    · intro i hi
      rcases List.mem_cons.mp hi with rfl | hi
      · exact hout
      · exact hf i hi
    · simp only [List.length_append, List.length_cons] at hlen ⊢
      omega

theorem orchReach_invariant (outcome : Nat → Bool) (ids : List Nat)
    {s : OrchState} (h : orchReach outcome ids s) : orchOk outcome ids s := by
  induction h with
  | refl =>
    refine ⟨?_, by simp [orchInit], by simp [orchInit], by simp [orchInit]⟩
    simp [orchInit]
  | tail _ hstep ih => exact orchStep_invariant outcome ids hstep ih

/-- C9: along every reachable schedule of `buffer_unordered(10)`, at most 10
document pipelines are in flight between fetch and patch. -/
theorem c9_concurrency_bound (outcome : Nat → Bool) (ids : List Nat)
    (s : OrchState) (h : orchReach outcome ids s) : s.inFlight.length ≤ 10 :=
  (orchReach_invariant outcome ids h).2.2.2

/-- C9 witness: the bound at the initial state of a concrete run. -/
theorem c9_witness : (orchInit [5, 6, 7]).inFlight.length ≤ 10 :=
  c9_concurrency_bound (fun _ => false) [5, 6, 7] _ Relation.ReflTransGen.refl

/-- C4: when a run finishes (nothing pending or in flight), the collected
failure list is exactly the multiset of submitted ids whose pipeline fails,
the success list is exactly the multiset of the others, and their counts add
up to N; moreover from any reachable unfinished state a step is always
possible (a failing document never blocks or aborts the others: the run
terminates only once every submitted id has finished one way or the
other). -/
theorem c4_orchestrator_failures (outcome : Nat → Bool) (ids : List Nat)
    (s : OrchState) (h : orchReach outcome ids s) :
    (orchDone s →
      ((s.failed : Multiset Nat) = ((ids.filter outcome : List Nat) : Multiset Nat) ∧
        (s.succeeded : Multiset Nat) =
          ((ids.filter (fun i => !outcome i) : List Nat) : Multiset Nat) ∧
        s.succeeded.length + s.failed.length = ids.length)) ∧
    (¬orchDone s → ∃ s2, OrchStep outcome s s2) := by
  obtain ⟨hm, hf, hsc, hlen⟩ := orchReach_invariant outcome ids h
  constructor
  · rintro ⟨hp, hfl⟩
    rw [hp, hfl] at hm
    simp only [Multiset.coe_nil, zero_add] at hm
    have hfa : Multiset.filter (fun i => outcome i = true)
        ((s.succeeded : Multiset Nat) + (s.failed : Multiset Nat)) =
        (s.failed : Multiset Nat) := by
      rw [Multiset.filter_add]
      rw [Multiset.filter_eq_nil.mpr (fun i hi => by
        simp [hsc i (Multiset.mem_coe.mp hi)]), zero_add]
      exact Multiset.filter_eq_self.mpr (fun i hi => hf i (Multiset.mem_coe.mp hi))
    have hsa : Multiset.filter (fun i => outcome i = false)
        ((s.succeeded : Multiset Nat) + (s.failed : Multiset Nat)) =
        (s.succeeded : Multiset Nat) := by
      rw [Multiset.filter_add]
      rw [Multiset.filter_eq_self.mpr (fun i hi => hsc i (Multiset.mem_coe.mp hi))]
      rw [Multiset.filter_eq_nil.mpr (fun i hi => by
        simp [hf i (Multiset.mem_coe.mp hi)]), add_zero]
    have e1 : (s.failed : Multiset Nat) =
        Multiset.filter (fun i => outcome i = true) (ids : Multiset Nat) := by
      rw [← hm, hfa]
    have e2 : (s.succeeded : Multiset Nat) =
        Multiset.filter (fun i => outcome i = false) (ids : Multiset Nat) := by
      rw [← hm, hsa]
    have hc1 : (fun i => decide (outcome i = true)) = outcome := by
      funext i
      cases outcome i <;> simp
    have hc2 : (fun i => decide (outcome i = false)) = (fun i => !outcome i) := by
      funext i
      cases outcome i <;> simp
    refine ⟨?_, ?_, ?_⟩
    · rw [e1, Multiset.filter_coe, hc1]
    · rw [e2, Multiset.filter_coe, hc2]
    · have := congrArg Multiset.card hm
      simpa [Multiset.card_add] using this
  · intro hnd
    obtain ⟨p, fl, sc, fa⟩ := s
    by_cases hfl : fl = []
    · subst hfl
      cases p with
      | nil => exact absurd ⟨rfl, rfl⟩ hnd
      | cons id rest => exact ⟨_, OrchStep.start id rest [] sc fa (by simp)⟩
    · cases fl with
      | nil => exact absurd rfl hfl
      | cons id fl2 =>
        cases hout : outcome id with
        | false => exact ⟨_, OrchStep.finishOk p [] fl2 sc fa id hout⟩
        | true => exact ⟨_, OrchStep.finishErr p [] fl2 sc fa id hout⟩

/-- C4 witness: a complete two-step run of the single failing document 3
collects exactly the failure list of the submitted ids. -/
theorem c4_witness :
    ((⟨[], [], [], [3]⟩ : OrchState).failed : Multiset Nat) =
      (([3].filter (fun _ => true) : List Nat) : Multiset Nat) := by
  have hreach : orchReach (fun _ => true) [3] ⟨[], [], [], [3]⟩ :=
    Relation.ReflTransGen.tail
      (Relation.ReflTransGen.tail Relation.ReflTransGen.refl
        (OrchStep.start 3 [] [] [] [] (by simp)))
      (OrchStep.finishErr [] [] [] [] [] 3 rfl)
  exact ((c4_orchestrator_failures (fun _ => true) [3] _ hreach).1 ⟨rfl, rfl⟩).1

/-- Faithfulness of the integer budget: `maxDocSize` equals the spec formula
`ceil(n_ctx * 2.5 - promptLen - 50)` clamped at zero. -/
theorem maxDocSize_eq_ceil (n L : Nat) :
    (maxDocSize n L : ℤ) = max 0 ⌈(n : ℚ) * (5 / 2) - L - 50⌉ := by
  obtain ⟨k, hkdef⟩ : ∃ k, (5 * n + 1) / 2 = k := ⟨_, rfl⟩
  have hk1 : 2 * k ≤ 5 * n + 1 := by omega
  have hk2 : 5 * n ≤ 2 * k := by omega
  have h0 : (n : ℚ) * (5 / 2) - L - 50 = (n : ℚ) * (5 / 2) - ((L + 50 : ℤ) : ℚ) := by
    push_cast
    ring
  have h2 : ⌈(n : ℚ) * (5 / 2)⌉ = (k : ℤ) := by
    rw [Int.ceil_eq_iff]
    have hq1 : (2 : ℚ) * (k : ℚ) ≤ 5 * (n : ℚ) + 1 := by exact_mod_cast hk1
    have hq2 : 5 * (n : ℚ) ≤ 2 * (k : ℚ) := by exact_mod_cast hk2
    constructor
    · push_cast
      linarith
    · push_cast
      linarith
  rw [h0, Int.ceil_sub_int, h2]
  unfold maxDocSize
  rw [hkdef]
  by_cases hle : (k : ℤ) - (L + 50) ≤ 0
  · rw [max_eq_left hle]
    omega
  · rw [max_eq_right (le_of_not_le hle)]
    omega
